import Mathlib

/-!
Verification of the RSS-to-EPUB converter (`rss_to_epub.py`).

This file shallowly embeds the parts of the program that the specification's
testable properties talk about:

* the filename computation of `RSSToEpubConverter._create_epub`
  (including an executable SHA-256, since the filename embeds a truncated
  SHA-256 digest of the post identifier);
* the per-entry processing loop of `RSSToEpubConverter.process_feed`
  (seen-set consultation, conversion, history append, counting);
* the feed-list reconciliation of `RSSFeedMonitor._update_converters`
  and the monitoring loop of `RSSFeedMonitor.run`;
* the monitor-mode argument parsing of `main`.

External collaborators (feedparser, ebooklib, BeautifulSoup, the filesystem)
are modelled as oracles: conversion success and history-append success are
Boolean-valued parameters, and the on-disk state is threaded explicitly.
Machine integers are modelled as `Nat` with explicit `% 2^32` masking.
-/

/-! ## SHA-256, executable

`hashlib.sha256(...).hexdigest()` is modelled by an executable SHA-256 over
the UTF-8 bytes of the input string.  The round constants are the fractional
parts of the cube roots of the first 64 primes and the initial state the
fractional parts of the square roots of the first 8 primes (FIPS 180-4);
they are derived here from integer root extraction rather than transcribed,
so that they are checkable by evaluation.
-/

/-- Mask to a 32-bit word. -/
def w32 (n : Nat) : Nat := n % 4294967296

/-- Right-rotation of a 32-bit word by `n` bits. -/
def rotr (n x : Nat) : Nat := w32 ((x >>> n) ||| (x <<< (32 - n)))

/-- SHA-256 big sigma 0. -/
def bsig0 (x : Nat) : Nat := rotr 2 x ^^^ rotr 13 x ^^^ rotr 22 x

/-- SHA-256 big sigma 1. -/
def bsig1 (x : Nat) : Nat := rotr 6 x ^^^ rotr 11 x ^^^ rotr 25 x

/-- SHA-256 small sigma 0. -/
def ssig0 (x : Nat) : Nat := rotr 7 x ^^^ rotr 18 x ^^^ (x >>> 3)

/-- SHA-256 small sigma 1. -/
def ssig1 (x : Nat) : Nat := rotr 17 x ^^^ rotr 19 x ^^^ (x >>> 10)

/-- SHA-256 choose function (`¬x` realised as xor with the 32-bit mask). -/
def chf (x y z : Nat) : Nat := (x &&& y) ^^^ ((4294967295 ^^^ x) &&& z)

/-- SHA-256 majority function. -/
def majf (x y z : Nat) : Nat := (x &&& y) ^^^ (x &&& z) ^^^ (y &&& z)

/-- The first 64 primes, sources of the SHA-256 constants. -/
def primes64 : List Nat :=
  [2, 3, 5, 7, 11, 13, 17, 19, 23, 29, 31, 37, 41, 43, 47, 53,
   59, 61, 67, 71, 73, 79, 83, 89, 97, 101, 103, 107, 109, 113, 127, 131,
   137, 139, 149, 151, 157, 163, 167, 173, 179, 181, 191, 193, 197, 199, 211, 223,
   227, 229, 233, 239, 241, 251, 257, 263, 269, 271, 277, 281, 283, 293, 307, 311]

/-- Bisection step for the integer cube root (invariant: `lo^3 ≤ n < hi^3`). -/
def icbrtGo : Nat → Nat → Nat → Nat → Nat
  | 0, lo, _, _ => lo
  | fuel + 1, lo, hi, n =>
    let mid := (lo + hi) / 2
    if mid = lo then lo
    else if mid * mid * mid ≤ n then icbrtGo fuel mid hi n
    else icbrtGo fuel lo mid n

/-- Integer cube root: the largest `r` with `r^3 ≤ n` (for `n < 2^200`). -/
def icbrt (n : Nat) : Nat := icbrtGo 200 0 (n + 1) n

/-- First 32 fractional bits of the real cube root of `p`. -/
def fracCbrt32 (p : Nat) : Nat := w32 (icbrt (p <<< 96))

/-- Bisection step for the integer square root (invariant: `lo^2 ≤ n < hi^2`). -/
def isqrtGo : Nat → Nat → Nat → Nat → Nat
  | 0, lo, _, _ => lo
  | fuel + 1, lo, hi, n =>
    let mid := (lo + hi) / 2
    if mid = lo then lo
    else if mid * mid ≤ n then isqrtGo fuel mid hi n
    else isqrtGo fuel lo mid n

/-- Integer square root: the largest `r` with `r^2 ≤ n` (for `n < 2^200`). -/
def isqrt (n : Nat) : Nat := isqrtGo 200 0 (n + 1) n

/-- First 32 fractional bits of the real square root of `p`. -/
def fracSqrt32 (p : Nat) : Nat := w32 (isqrt (p <<< 64))

/-- The 64 SHA-256 round constants. -/
def sha256K : List Nat := primes64.map fracCbrt32

/-- The eight 32-bit words of a SHA-256 state. -/
structure Sha8 where
  a : Nat
  b : Nat
  c : Nat
  d : Nat
  e : Nat
  f : Nat
  g : Nat
  h : Nat

/-- The SHA-256 initial hash value. -/
def shaInit : Sha8 :=
  ⟨fracSqrt32 2, fracSqrt32 3, fracSqrt32 5, fracSqrt32 7,
   fracSqrt32 11, fracSqrt32 13, fracSqrt32 17, fracSqrt32 19⟩

/-- One round of the SHA-256 compression function on `(Kt, Wt)`. -/
def compressStep (st : Sha8) (kw : Nat × Nat) : Sha8 :=
  let t1 := w32 (st.h + bsig1 st.e + chf st.e st.f st.g + kw.1 + kw.2)
  let t2 := w32 (bsig0 st.a + majf st.a st.b st.c)
  { a := w32 (t1 + t2), b := st.a, c := st.b, d := st.c,
    e := w32 (st.d + t1), f := st.e, g := st.f, h := st.g }

/-- Message-schedule extension: `racc` holds the schedule so far, reversed. -/
def msgSchedGo : Nat → List Nat → List Nat
  | 0, racc => racc.reverse
  | k + 1, racc =>
    let t := w32 (ssig1 (racc.getD 1 0) + racc.getD 6 0 +
      ssig0 (racc.getD 14 0) + racc.getD 15 0)
    msgSchedGo k (t :: racc)

/-- The 64-word message schedule of a 16-word block. -/
def msgSched (block : List Nat) : List Nat := msgSchedGo 48 block.reverse

/-- Big-endian bytes-to-32-bit-words (fuelled by the list length). -/
def wordsGo : Nat → List Nat → List Nat
  | 0, _ => []
  | _, [] => []
  | fuel + 1, l =>
    (((l.getD 0 0) <<< 24) + ((l.getD 1 0) <<< 16) + ((l.getD 2 0) <<< 8) + l.getD 3 0)
      :: wordsGo fuel (l.drop 4)

/-- Group a byte list into big-endian 32-bit words. -/
def words32 (l : List Nat) : List Nat := wordsGo l.length l

/-- Process one 64-byte block. -/
def compressBlock (st : Sha8) (block : List Nat) : Sha8 :=
  let ws := msgSched (words32 block)
  let r := (sha256K.zip ws).foldl compressStep st
  { a := w32 (st.a + r.a), b := w32 (st.b + r.b), c := w32 (st.c + r.c),
    d := w32 (st.d + r.d), e := w32 (st.e + r.e), f := w32 (st.f + r.f),
    g := w32 (st.g + r.g), h := w32 (st.h + r.h) }

/-- The `k` big-endian bytes of `n`. -/
def toBytesBE : Nat → Nat → List Nat
  | 0, _ => []
  | k + 1, n => ((n >>> (8 * k)) % 256) :: toBytesBE k n

/-- SHA-256 padding: `0x80`, zeros to 56 mod 64, then the 64-bit bit length. -/
def padMsg (msg : List Nat) : List Nat :=
  msg ++ 128 :: List.replicate ((119 - msg.length % 64) % 64) 0
    ++ toBytesBE 8 (8 * msg.length)

/-- Split a byte list into 64-byte chunks (fuelled by the list length). -/
def chunksGo : Nat → List Nat → List (List Nat)
  | 0, _ => []
  | _, [] => []
  | fuel + 1, l => l.take 64 :: chunksGo fuel (l.drop 64)

/-- The 64-byte chunks of a padded message. -/
def chunks64 (l : List Nat) : List (List Nat) := chunksGo l.length l

/-- UTF-8 encoding of one character, as byte values. -/
def utf8Char (c : Char) : List Nat :=
  let n := c.toNat
  if n < 128 then [n]
  else if n < 2048 then [192 + n / 64, 128 + n % 64]
  else if n < 65536 then [224 + n / 4096, 128 + (n / 64) % 64, 128 + n % 64]
  else [240 + n / 262144, 128 + (n / 4096) % 64, 128 + (n / 64) % 64, 128 + n % 64]

/-- UTF-8 encoding of a string, as byte values (Python `s.encode('utf-8')`). -/
def utf8Bytes (s : String) : List Nat := (s.data.map utf8Char).flatten

/-- The SHA-256 state after hashing the UTF-8 bytes of `s`. -/
def sha256Words (s : String) : Sha8 :=
  (chunks64 (padMsg (utf8Bytes s))).foldl compressBlock shaInit

/-- Lowercase hex digit for a nibble. -/
def hexDigitChar (n : Nat) : Char := "0123456789abcdef".data.getD n '0'

/-- The 8 lowercase hex characters of a 32-bit word, most significant first. -/
def wordHex (w : Nat) : List Char :=
  [hexDigitChar ((w >>> 28) % 16), hexDigitChar ((w >>> 24) % 16),
   hexDigitChar ((w >>> 20) % 16), hexDigitChar ((w >>> 16) % 16),
   hexDigitChar ((w >>> 12) % 16), hexDigitChar ((w >>> 8) % 16),
   hexDigitChar ((w >>> 4) % 16), hexDigitChar (w % 16)]

/-- Model of `hashlib.sha256(s.encode('utf-8')).hexdigest()`, as a character list. -/
def sha256HexChars (s : String) : List Char :=
  let d := sha256Words s
  wordHex d.a ++ wordHex d.b ++ wordHex d.c ++ wordHex d.d
    ++ wordHex d.e ++ wordHex d.f ++ wordHex d.g ++ wordHex d.h

/-- Model of `hashlib.sha256(post_id.encode('utf-8')).hexdigest()[:16]`
(line 131 of the source). -/
def idHash16 (s : String) : List Char := (sha256HexChars s).take 16

/-! ## The output filename (`RSSToEpubConverter._create_epub`, lines 120-132)

```python
safe_title = "".join(
    c if c.isalnum() or c in ('-', '_') else '_' if c == ' ' else ''
    for c in title
).strip('_')
safe_title = safe_title[:50]  # Limit length
if not safe_title:
    safe_title = 'post'
id_hash = hashlib.sha256(post_id.encode('utf-8')).hexdigest()[:16]
filename = f"{safe_title}_{id_hash}.epub"
```

Python's `str.isalnum` is Unicode-aware; `Char.isAlphanum` models its ASCII
fragment, which is all the claims exercise.
-/

/-- The contribution of one title character to the sanitized title:
kept if alphanumeric, `'-'` or `'_'`; a space becomes `'_'`; others vanish. -/
def keepTitleChar (c : Char) : List Char :=
  if c.isAlphanum || c = '-' || c = '_' then [c]
  else if c = ' ' then ['_'] else []

/-- Python `str.strip('_')`: remove leading and trailing underscores. -/
def stripUnderscores (l : List Char) : List Char :=
  ((l.dropWhile (fun c => c = '_')).reverse.dropWhile (fun c => c = '_')).reverse

/-- The sanitized title of `_create_epub`, in the source's order:
join the kept characters, strip underscores, truncate to 50,
fall back to `"post"` when empty. -/
def safeTitle (title : String) : List Char :=
  let s := stripUnderscores (title.data.map keepTitleChar).flatten
  let s50 := s.take 50
  if s50 = [] then "post".data else s50

/-- The filename `f"{safe_title}_{id_hash}.epub"` computed by `_create_epub`. -/
def mkEpubFilename (title postid : String) : String :=
  ⟨safeTitle title ++ ('_' :: idHash16 postid) ++ ".epub".data⟩

/-- The sanitized title as worded by claim C3: keep alphanumerics, spaces,
hyphens and underscores (space normalized to underscore), *first* truncate to
50 characters, *then* strip the leading/trailing separator (underscore)
characters, fall back to `"post"` when empty.  This follows the claim's words,
to be compared with `safeTitle` (which follows the source). -/
def claimSafeTitle (title : String) : List Char :=
  let kept := (title.data.filter
      (fun c => c.isAlphanum || c = ' ' || c = '-' || c = '_')).map
    (fun c => if c = ' ' then '_' else c)
  let t50 := kept.take 50
  let s := stripUnderscores t50
  if s = [] then "post".data else s

/-- The filename as described by claim C3 (see `claimSafeTitle`). -/
def claimFilename (title postid : String) : String :=
  ⟨claimSafeTitle title ++ ('_' :: idHash16 postid) ++ ".epub".data⟩

/-- The sanitized title as worded by the amended claim C3: keep alphanumerics,
spaces, hyphens and underscores (space normalized to underscore), *first*
strip the leading/trailing underscores, *then* truncate to 50 characters,
fall back to `"post"` when empty. -/
def amendedSafeTitle (title : String) : List Char :=
  let kept := (title.data.filter
      (fun c => c.isAlphanum || c = ' ' || c = '-' || c = '_')).map
    (fun c => if c = ' ' then '_' else c)
  let s := stripUnderscores kept
  let s50 := s.take 50
  if s50 = [] then "post".data else s50

/-- The filename as described by the amended claim C3. -/
def amendedFilename (title postid : String) : String :=
  ⟨amendedSafeTitle title ++ ('_' :: idHash16 postid) ++ ".epub".data⟩

/-- The first 64 bits of the SHA-256 digest, as a number (the value the
16 hex characters of `idHash16` spell out). -/
def digest64 (s : String) : Nat :=
  (sha256Words s).a * 4294967296 + (sha256Words s).b

/-- The value `digest64` seen inside the 64-bit range, for pigeonhole arguments about
truncated-digest collisions. -/
def hashFin64 (s : String) : Fin 18446744073709551616 :=
  ⟨digest64 s % 18446744073709551616, Nat.mod_lt _ (by norm_num)⟩

/-! ## Feed entries and `RSSToEpubConverter.process_feed` (lines 140-198)

A feed entry carries optional `id`, `link` and `title` fields (the content
and author fields influence only the document body, which no claim touches).
The external collaborators are oracles:

* `convertOk e` - whether `_create_epub(e)` returns normally (it writes
  exactly one artifact file) or raises;
* `saveOk pid` - whether `_save_post_id(pid)` (the history-file append)
  returns normally or raises.

Both exceptions are caught by the `try/except` of `process_feed`; an
exception raised by `_save_post_id` happens after `self.seen_posts.add`
and before `new_posts_count += 1`.
-/

/-- A parsed feed entry (`feedparser` entry object), restricted to the
fields `process_feed` and the filename logic consult. -/
structure FeedEntry where
  id : Option String
  link : Option String
  title : Option String
deriving DecidableEq

/-- Model of `entry.get('id', entry.get('link', ''))` (lines 72 and 168). -/
def postId (e : FeedEntry) : String := e.id.getD (e.link.getD "")

/-- The mutable state read and written by one `process_feed` call:
the in-memory `seen_posts` set, the history file's lines (`store`), the
identifiers of the entries for which `_create_epub` wrote an artifact
(`converted`), and `new_posts_count` (`count`). -/
structure ProcState where
  seen : Finset String
  store : List String
  converted : List String
  count : Nat
deriving DecidableEq

/-- The body of the `for entry in feed.entries` loop (lines 166-195):
skip on empty identifier; skip when already seen; otherwise convert
(appending one artifact), add to the in-memory set, append to the history
file, and count - stopping at the first failing step, whose exception the
`except` clause turns into a `continue`. -/
def processEntry (convertOk : FeedEntry → Bool) (saveOk : String → Bool)
    (st : ProcState) (e : FeedEntry) : ProcState :=
  let pid := postId e
  if pid = "" then st
  else if pid ∈ st.seen then st
  else if convertOk e then
    let stc := { st with converted := st.converted ++ [pid],
                         seen := insert pid st.seen }
    if saveOk pid then
      { stc with store := stc.store ++ [pid], count := stc.count + 1 }
    else stc
  else st

/-- Model of `process_feed` on a fetched entry list, starting from the converter's
current seen set and history file; `feed.bozo` only logs, and an empty entry
list returns count 0, which coincides with folding over no entries. -/
def processFeed (convertOk : FeedEntry → Bool) (saveOk : String → Bool)
    (entries : List FeedEntry) (seen : Finset String) (store : List String) :
    ProcState :=
  entries.foldl (processEntry convertOk saveOk) ⟨seen, store, [], 0⟩

/-! ## The monitor (`RSSFeedMonitor`, lines 201-336)

The filesystem is a map from path to the list of lines of the file there
(`none` when the file does not exist).  `_update_converters` performs no
filesystem writes or deletions, so the monitor-level operations thread the
disk through unchanged; threading it makes that explicit and lets the
claims about untouched history files be stated.
-/

/-- Filesystem contents: lines of the file at each path, if it exists. -/
abbrev DiskMap : Type := String → Option (List String)

/-- The per-feed history file name
`f'seen_posts_{sha256(feed_url).hexdigest()[:16]}.txt'` (lines 274-275). -/
def histFileName (url : String) : String :=
  "seen_posts_" ++ ⟨idHash16 url⟩ ++ ".txt"

/-- An `RSSToEpubConverter` as held by the monitor's registry: its URL, its
history-file path and its in-memory seen set (the output directory is shared
and plays no role in the claims). -/
structure Converter where
  rssUrl : String
  historyFile : String
  seenPosts : Finset String

/-- Model of `RSSToEpubConverter._load_history` (lines 38-44): empty set when the
file does not exist, else the set of stripped nonblank lines.  Python
`str.strip()` is modelled by `String.trim` (ASCII whitespace). -/
def loadHistory (disk : DiskMap) (path : String) : Finset String :=
  match disk path with
  | none => ∅
  | some lines => ((lines.map String.trim).filter (fun l => l ≠ "")).toFinset

/-- Model of `RSSToEpubConverter.__init__` for a monitored feed (lines 276-280):
reads the history file; writes nothing to it. -/
def mkConverter (disk : DiskMap) (url : String) : Converter :=
  { rssUrl := url, historyFile := histFileName url,
    seenPosts := loadHistory disk (histFileName url) }

/-- The monitor's `self.converters` dict: an insertion-ordered association
list from feed URL to converter. -/
abbrev Registry : Type := List (String × Converter)

/-- The feed URLs holding a processor in the registry (`dict` keys). -/
def registryKeys (r : Registry) : List String := r.map Prod.fst

/-- Model of `RSSFeedMonitor._update_converters` (lines 258-287): on an empty loaded
feed list, return with the registry unchanged; otherwise instantiate a
converter for each URL not yet present and delete the processors whose URL
is no longer listed.  Python iterates the *set* `new_feeds` in unspecified
order; the embedding fixes first-occurrence feed-list order, which agrees
on the resulting key set.  The claims consume `feeds` already loaded by
`_load_feed_list` (blank lines and `#` comments removed). -/
def updateConverters (disk : DiskMap) (feeds : List String) (convs : Registry) :
    Registry :=
  if feeds = [] then convs
  else
    let added := convs ++
      ((feeds.dedup.filter (fun u => u ∉ registryKeys convs)).map
        (fun u => (u, mkConverter disk u)))
    added.filter (fun p => p.1 ∈ feeds)

/-- Reconciliation together with its (absent) filesystem effect: the
source function only ever reads files, so the disk is returned unchanged. -/
def updateConvertersFS (disk : DiskMap) (feeds : List String) (convs : Registry) :
    Registry × DiskMap :=
  (updateConverters disk feeds convs, disk)

/-- The monitor state carried across loop iterations. -/
structure MonState where
  converters : Registry

/-- What the environment supplies to one iteration of the `while True` loop
of `RSSFeedMonitor.run`: whether an interrupt arrives at the iteration
boundary, whether `_check_feed_list_updated()` reports a newer mtime, and,
if so, the reloaded feed list and the current disk. -/
structure LoopEnv where
  interrupt : Bool
  feedListUpdated : Bool
  feeds : List String
  disk : DiskMap

/-- Result of one loop iteration: `stopped` (the `KeyboardInterrupt` handler
ran) or `next st processed`, continuing with state `st` after invoking
`process_feed` on each URL in `processed` (per-feed exceptions are caught
and do not affect the outcome). -/
inductive LoopOutcome
  | stopped
  | next (st : MonState) (processed : List String)

/-- One iteration of the `while True` loop (lines 311-333): reconcile when
the feed list changed; if that leaves no converters, sleep and `continue`
without processing; otherwise process every registered feed and sleep. -/
def loopStep (env : LoopEnv) (st : MonState) : LoopOutcome :=
  if env.interrupt then .stopped
  else
    let st1 := if env.feedListUpdated then
        ⟨updateConverters env.disk env.feeds st.converters⟩ else st
    if env.feedListUpdated && st1.converters.isEmpty then .next st1 []
    else .next st1 (registryKeys st1.converters)

/-- How the startup phase of `run` (lines 297-308) ends: the early `return`
of lines 302-305, or entry into the `while True` loop. -/
inductive StartOutcome
  | exitNoFeeds
  | enterLoop (st : MonState)

/-- The startup phase of `run`: load the feed list, build the initial
registry from an empty one, and *return without looping* when the registry
came out empty - the only inputs here are the feed list and the disk, not
any interrupt. -/
def runStart (disk : DiskMap) (feeds : List String) : StartOutcome :=
  let reg := updateConverters disk feeds []
  if reg.isEmpty then .exitNoFeeds else .enterLoop ⟨reg⟩

/-! ## Monitor-mode argument parsing (`main`, lines 358-384)

`sys.exit(1)` is modelled as `Except.error 1`.  The `--interval` value goes
through the Python builtin `float()`; its result is modelled by `PFloat`
(NaN, the infinities, or an exact rational) and `pyFloatLit` parses the
fragment the claims exercise: an optional sign, the keywords `nan` and
`inf`/`infinity` (lowercase), and decimal literals without an exponent.
The exact rational magnitude ignores the rounding and underflow of the
binary `float` type, which no claim here depends on. -/

/-- A Python `float` value: NaN, an infinity, or a (model-exact) rational. -/
inductive PFloat
  | nan
  | inf
  | ninf
  | num (q : ℚ)
deriving DecidableEq

/-- Python `x <= 0` on a float: `False` for NaN and `inf`. -/
def PFloat.leZero : PFloat → Bool
  | .nan => false
  | .inf => false
  | .ninf => true
  | .num q => decide (q ≤ 0)

/-- Python unary minus on a float. -/
def PFloat.neg : PFloat → PFloat
  | .nan => .nan
  | .inf => .ninf
  | .ninf => .inf
  | .num q => .num (-q)

/-- Numeric value of a digit character. -/
def digitVal (c : Char) : Nat := c.toNat - 48

/-- Value of a digit string. -/
def digitsToNat (l : List Char) : Nat := l.foldl (fun a c => 10 * a + digitVal c) 0

/-- Unsigned part of the modelled `float()` grammar: `nan`, `inf`,
`infinity`, or `digits [. digits]` / `. digits`. -/
def pyFloatCore (l : List Char) : Option PFloat :=
  if l = "nan".data then some .nan
  else if l = "inf".data ∨ l = "infinity".data then some .inf
  else
    let intPart := l.takeWhile (fun c => c ≠ '.')
    let rest := l.dropWhile (fun c => c ≠ '.')
    if intPart.all Char.isDigit then
      match rest with
      | [] =>
        if intPart = [] then none
        else some (.num ((digitsToNat intPart : ℚ)))
      | _ :: frac =>
        if frac.all Char.isDigit ∧ (intPart ≠ [] ∨ frac ≠ []) ∧ '.' ∉ frac then
          some (.num ((digitsToNat intPart : ℚ) +
            (digitsToNat frac : ℚ) / (10 : ℚ) ^ frac.length))
        else none
    else none

/-- The modelled Python `float(s)` (see the section comment for the
fragment covered). -/
def pyFloatLit (s : String) : Option PFloat :=
  match s.data with
  | '+' :: rest => pyFloatCore rest
  | '-' :: rest => (pyFloatCore rest).map PFloat.neg
  | l => pyFloatCore l

/-- The configuration assembled by the monitor branch of `main`. -/
structure MonitorConfig where
  feedListFile : String
  outputDir : String
  pollInterval : PFloat
deriving DecidableEq

/-- The `while i < len(sys.argv)` option loop (lines 364-384) over
`sys.argv[2:]`: each recognised flag consumes its value; an `--interval`
value that `float()` rejects, or whose value satisfies `poll_interval <= 0`,
exits with code 1; any other token - including a recognised flag with no
value after it - exits with code 1 as an unknown argument.  All exits
happen before an `RSSFeedMonitor` is constructed. -/
def parseArgsLoop (cfg : MonitorConfig) : List String → Except Nat MonitorConfig
  | [] => .ok cfg
  | "--feed-list" :: v :: rest => parseArgsLoop { cfg with feedListFile := v } rest
  | "--output" :: v :: rest => parseArgsLoop { cfg with outputDir := v } rest
  | "--interval" :: v :: rest =>
    match pyFloatLit v with
    | none => .error 1
    | some x => if x.leZero then .error 1
      else parseArgsLoop { cfg with pollInterval := x } rest
  | _ :: _ => .error 1

/-- Monitor-mode argument parsing with the documented defaults
(`rss_feed.txt`, `output`, 300 seconds). -/
def parseMonitorArgs (args : List String) : Except Nat MonitorConfig :=
  parseArgsLoop ⟨"rss_feed.txt", "output", .num 300⟩ args

/-! ## Lemmas about the processing loop -/

theorem processEntry_of_empty (co : FeedEntry → Bool) (so : String → Bool)
    (st : ProcState) (e : FeedEntry) (h : postId e = "") :
    processEntry co so st e = st := by
  simp [processEntry, h]

theorem processEntry_of_seen (co : FeedEntry → Bool) (so : String → Bool)
    (st : ProcState) (e : FeedEntry) (h : postId e ∈ st.seen) :
    processEntry co so st e = st := by
  simp [processEntry, h]

theorem processEntry_of_fail (co : FeedEntry → Bool) (so : String → Bool)
    (st : ProcState) (e : FeedEntry) (h : co e = false) :
    processEntry co so st e = st := by
  simp [processEntry, h]

theorem processEntry_convert_save (co : FeedEntry → Bool) (so : String → Bool)
    (st : ProcState) (e : FeedEntry) (h1 : postId e ≠ "") (h2 : postId e ∉ st.seen)
    (h3 : co e = true) (h4 : so (postId e) = true) :
    processEntry co so st e =
      ⟨insert (postId e) st.seen, st.store ++ [postId e],
       st.converted ++ [postId e], st.count + 1⟩ := by
  simp [processEntry, h1, h2, h3, h4]

theorem processEntry_convert_nosave (co : FeedEntry → Bool) (so : String → Bool)
    (st : ProcState) (e : FeedEntry) (h1 : postId e ≠ "") (h2 : postId e ∉ st.seen)
    (h3 : co e = true) (h4 : so (postId e) = false) :
    processEntry co so st e =
      ⟨insert (postId e) st.seen, st.store, st.converted ++ [postId e], st.count⟩ := by
  simp [processEntry, h1, h2, h3, h4]

theorem seen_subset_processEntry (co : FeedEntry → Bool) (so : String → Bool)
    (st : ProcState) (e : FeedEntry) : st.seen ⊆ (processEntry co so st e).seen := by
  by_cases h1 : postId e = ""
  · simp [processEntry_of_empty co so st e h1]
  · by_cases h2 : postId e ∈ st.seen
    · simp [processEntry_of_seen co so st e h2]
    · by_cases h3 : co e = true
      · by_cases h4 : so (postId e) = true
        · rw [processEntry_convert_save co so st e h1 h2 h3 h4]
          exact Finset.subset_insert _ _
        · rw [processEntry_convert_nosave co so st e h1 h2 h3
            (Bool.eq_false_iff.mpr h4)]
          exact Finset.subset_insert _ _
      · simp [processEntry_of_fail co so st e (Bool.eq_false_iff.mpr h3)]

theorem seen_subset_foldl (co : FeedEntry → Bool) (so : String → Bool) :
    ∀ (entries : List FeedEntry) (st : ProcState),
      st.seen ⊆ (entries.foldl (processEntry co so) st).seen := by
  intro entries
  induction entries with
  | nil => intro st; simp
  | cons e rest ih =>
    intro st
    rw [List.foldl_cons]
    exact (seen_subset_processEntry co so st e).trans (ih _)

theorem mem_seen_foldl (co : FeedEntry → Bool) (so : String → Bool) :
    ∀ (entries : List FeedEntry) (st : ProcState) (pid : String),
      pid ∈ (entries.foldl (processEntry co so) st).seen ↔
        pid ∈ st.seen ∨ (pid ≠ "" ∧ ∃ e ∈ entries, postId e = pid ∧ co e = true) := by
  intro entries
  induction entries with
  | nil => intro st pid; simp
  | cons e rest ih =>
    intro st pid
    rw [List.foldl_cons, ih, List.exists_mem_cons_iff]
    by_cases h1 : postId e = ""
    · rw [processEntry_of_empty co so st e h1]
      constructor
      · rintro (h | ⟨hne, hex⟩)
        · exact Or.inl h
        · exact Or.inr ⟨hne, Or.inr hex⟩
      · rintro (h | ⟨hne, ⟨hpe, _⟩ | hex⟩)
        · exact Or.inl h
        · exact absurd (h1 ▸ hpe) (Ne.symm hne)
        · exact Or.inr ⟨hne, hex⟩
    · by_cases h2 : postId e ∈ st.seen
      · rw [processEntry_of_seen co so st e h2]
        constructor
        · rintro (h | ⟨hne, hex⟩)
          · exact Or.inl h
          · exact Or.inr ⟨hne, Or.inr hex⟩
        · rintro (h | ⟨hne, ⟨hpe, _⟩ | hex⟩)
          · exact Or.inl h
          · exact Or.inl (hpe ▸ h2)
          · exact Or.inr ⟨hne, hex⟩
      · by_cases h3 : co e = true
        · have hseen : (processEntry co so st e).seen = insert (postId e) st.seen := by
            by_cases h4 : so (postId e) = true
            · rw [processEntry_convert_save co so st e h1 h2 h3 h4]
            · rw [processEntry_convert_nosave co so st e h1 h2 h3
                (Bool.eq_false_iff.mpr h4)]
          rw [hseen, Finset.mem_insert]
          constructor
          · rintro ((h | h) | ⟨hne, hex⟩)
            · exact Or.inr ⟨h ▸ h1, Or.inl ⟨h.symm, h3⟩⟩
            · exact Or.inl h
            · exact Or.inr ⟨hne, Or.inr hex⟩
          · rintro (h | ⟨hne, ⟨hpe, _⟩ | hex⟩)
            · exact Or.inl (Or.inr h)
            · exact Or.inl (Or.inl hpe.symm)
            · exact Or.inr ⟨hne, hex⟩
        · rw [processEntry_of_fail co so st e (Bool.eq_false_iff.mpr h3)]
          constructor
          · rintro (h | ⟨hne, hex⟩)
            · exact Or.inl h
            · exact Or.inr ⟨hne, Or.inr hex⟩
          · rintro (h | ⟨hne, ⟨_, hco⟩ | hex⟩)
            · exact Or.inl h
            · exact absurd hco h3
            · exact Or.inr ⟨hne, hex⟩

theorem mem_store_foldl (co : FeedEntry → Bool) :
    ∀ (entries : List FeedEntry) (st : ProcState) (pid : String),
      pid ∈ (entries.foldl (processEntry co (fun _ => true)) st).store ↔
        pid ∈ st.store ∨
          (pid ≠ "" ∧ pid ∉ st.seen ∧ ∃ e ∈ entries, postId e = pid ∧ co e = true) := by
  intro entries
  induction entries with
  | nil => intro st pid; simp
  | cons e rest ih =>
    intro st pid
    rw [List.foldl_cons, ih, List.exists_mem_cons_iff]
    by_cases h1 : postId e = ""
    · rw [processEntry_of_empty co _ st e h1]
      constructor
      · rintro (h | ⟨hne, hns, hex⟩)
        · exact Or.inl h
        · exact Or.inr ⟨hne, hns, Or.inr hex⟩
      · rintro (h | ⟨hne, hns, ⟨hpe, _⟩ | hex⟩)
        · exact Or.inl h
        · exact absurd (h1 ▸ hpe) (Ne.symm hne)
        · exact Or.inr ⟨hne, hns, hex⟩
    · by_cases h2 : postId e ∈ st.seen
      · rw [processEntry_of_seen co _ st e h2]
        constructor
        · rintro (h | ⟨hne, hns, hex⟩)
          · exact Or.inl h
          · exact Or.inr ⟨hne, hns, Or.inr hex⟩
        · rintro (h | ⟨hne, hns, ⟨hpe, _⟩ | hex⟩)
          · exact Or.inl h
          · exact absurd (hpe ▸ h2) hns
          · exact Or.inr ⟨hne, hns, hex⟩
      · by_cases h3 : co e = true
        · rw [processEntry_convert_save co _ st e h1 h2 h3 rfl]
          by_cases hpq : pid = postId e
          · subst hpq
            refine iff_of_true (Or.inl ?_) (Or.inr ⟨h1, h2, Or.inl ⟨rfl, h3⟩⟩)
            simp
          · constructor
            · rintro (h | ⟨hne, hns, hex⟩)
              · rcases List.mem_append.mp h with h | h
                · exact Or.inl h
                · exact absurd (List.mem_singleton.mp h) hpq
              · rw [Finset.mem_insert] at hns
                push_neg at hns
                exact Or.inr ⟨hne, hns.2, Or.inr hex⟩
            · rintro (h | ⟨hne, hns, ⟨hpe, _⟩ | hex⟩)
              · exact Or.inl (List.mem_append.mpr (Or.inl h))
              · exact absurd hpe.symm hpq
              · refine Or.inr ⟨hne, ?_, hex⟩
                rw [Finset.mem_insert]
                push_neg
                exact ⟨hpq, hns⟩
        · rw [processEntry_of_fail co _ st e (Bool.eq_false_iff.mpr h3)]
          constructor
          · rintro (h | ⟨hne, hns, hex⟩)
            · exact Or.inl h
            · exact Or.inr ⟨hne, hns, Or.inr hex⟩
          · rintro (h | ⟨hne, hns, ⟨_, hco⟩ | hex⟩)
            · exact Or.inl h
            · exact absurd hco h3
            · exact Or.inr ⟨hne, hns, hex⟩

theorem store_length_foldl (co : FeedEntry → Bool) :
    ∀ (entries : List FeedEntry) (st : ProcState),
      (entries.foldl (processEntry co (fun _ => true)) st).store.length + st.count =
        st.store.length + (entries.foldl (processEntry co (fun _ => true)) st).count := by
  intro entries
  induction entries with
  | nil => intro st; simp
  | cons e rest ih =>
    intro st
    rw [List.foldl_cons]
    by_cases h1 : postId e = ""
    · rw [processEntry_of_empty co _ st e h1]; exact ih st
    · by_cases h2 : postId e ∈ st.seen
      · rw [processEntry_of_seen co _ st e h2]; exact ih st
      · by_cases h3 : co e = true
        · rw [processEntry_convert_save co _ st e h1 h2 h3 rfl]
          have := ih ⟨insert (postId e) st.seen, st.store ++ [postId e],
            st.converted ++ [postId e], st.count + 1⟩
          simp only [List.length_append, List.length_singleton] at this ⊢
          omega
        · rw [processEntry_of_fail co _ st e (Bool.eq_false_iff.mpr h3)]; exact ih st

theorem foldl_eq_self (co : FeedEntry → Bool) (so : String → Bool) :
    ∀ (entries : List FeedEntry) (st : ProcState),
      (∀ e ∈ entries, postId e = "" ∨ postId e ∈ st.seen) →
      entries.foldl (processEntry co so) st = st := by
  intro entries
  induction entries with
  | nil => intro st _; rfl
  | cons e rest ih =>
    intro st h
    have hstep : processEntry co so st e = st := by
      rcases h e (List.mem_cons_self e rest) with h1 | h2
      · exact processEntry_of_empty co so st e h1
      · exact processEntry_of_seen co so st e h2
    rw [List.foldl_cons, hstep]
    exact ih st (fun x hx => h x (List.mem_cons_of_mem e hx))

/-! ## Lemmas about the filename computation -/

theorem keepTitleChar_eq (c : Char) :
    keepTitleChar c =
      if c.isAlphanum || c = ' ' || c = '-' || c = '_' then
        [if c = ' ' then '_' else c]
      else [] := by
  by_cases hsp : c = ' '
  · subst hsp; decide
  · by_cases ha : c.isAlphanum <;> by_cases hd : c = '-' <;> by_cases hu : c = '_' <;>
      simp [keepTitleChar, ha, hd, hu, hsp]

theorem keepTitleChar_flatten (l : List Char) :
    (l.map keepTitleChar).flatten =
      (l.filter (fun c => c.isAlphanum || c = ' ' || c = '-' || c = '_')).map
        (fun c => if c = ' ' then '_' else c) := by
  induction l with
  | nil => rfl
  | cons c l ih =>
    rw [List.map_cons, List.flatten_cons, ih, keepTitleChar_eq, List.filter_cons]
    by_cases h : (c.isAlphanum || c = ' ' || c = '-' || c = '_') = true
    · simp [h]
    · simp [Bool.eq_false_iff.mpr h]

theorem sha256HexChars_length (s : String) : (sha256HexChars s).length = 64 := by
  simp [sha256HexChars, wordHex]

theorem idHash16_length (s : String) : (idHash16 s).length = 16 := by
  simp [idHash16, sha256HexChars_length]

theorem idHash16_eq_two_words (s : String) :
    idHash16 s = wordHex (sha256Words s).a ++ wordHex (sha256Words s).b := rfl

theorem compressBlock_bounds (st : Sha8) (blk : List Nat) :
    (compressBlock st blk).a < 4294967296 ∧ (compressBlock st blk).b < 4294967296 := by
  refine ⟨Nat.mod_lt _ (by norm_num), Nat.mod_lt _ (by norm_num)⟩

theorem foldl_compressBlock_bounds :
    ∀ (blocks : List (List Nat)) (st : Sha8),
      st.a < 4294967296 → st.b < 4294967296 →
      (blocks.foldl compressBlock st).a < 4294967296 ∧
        (blocks.foldl compressBlock st).b < 4294967296 := by
  intro blocks
  induction blocks with
  | nil => intro st ha hb; exact ⟨ha, hb⟩
  | cons blk rest ih =>
    intro st ha hb
    rw [List.foldl_cons]
    exact ih _ (compressBlock_bounds st blk).1 (compressBlock_bounds st blk).2

theorem sha256Words_bounds (s : String) :
    (sha256Words s).a < 4294967296 ∧ (sha256Words s).b < 4294967296 := by
  unfold sha256Words
  refine foldl_compressBlock_bounds _ shaInit ?_ ?_ <;>
    exact Nat.mod_lt _ (by norm_num)

/-! ## Lemmas about the monitor registry -/

theorem mem_keys_updateConverters (disk : DiskMap) (feeds : List String)
    (convs : Registry) (u : String) (h : feeds ≠ []) :
    u ∈ registryKeys (updateConverters disk feeds convs) ↔ u ∈ feeds := by
  unfold updateConverters
  rw [if_neg h]
  constructor
  · intro hu
    rcases List.mem_map.mp hu with ⟨p, hp, hpu⟩
    rcases List.mem_filter.mp hp with ⟨_, hmem⟩
    exact hpu ▸ (by simpa using hmem)
  · intro hu
    by_cases hk : u ∈ registryKeys convs
    · rcases List.mem_map.mp hk with ⟨p, hp, hpu⟩
      refine List.mem_map.mpr ⟨p, List.mem_filter.mpr ⟨List.mem_append.mpr (Or.inl hp), ?_⟩, hpu⟩
      simpa [hpu] using hu
    · refine List.mem_map.mpr ⟨(u, mkConverter disk u),
        List.mem_filter.mpr ⟨List.mem_append.mpr (Or.inr ?_), by simpa using hu⟩, rfl⟩
      exact List.mem_map.mpr ⟨u,
        List.mem_filter.mpr ⟨List.mem_dedup.mpr hu, by simpa using hk⟩, rfl⟩

/-! ## The claims -/

/-- Claim C1: With the history append succeeding (its failure is claim C9's
subject), an identifier is in the history store after `process_feed` exactly
when it was already there or some entry carrying it (fresh and nonempty) had
its EPUB conversion succeed; in particular an entry whose conversion raises
leaves its identifier absent.  Moreover the store grows by exactly the
returned count, so a failed entry is also never counted. -/
theorem c1_marked_iff_converted (convertOk : FeedEntry → Bool)
    (entries : List FeedEntry) (seen : Finset String) (store : List String)
    (pid : String) :
    (pid ∈ (processFeed convertOk (fun _ => true) entries seen store).store ↔
      pid ∈ store ∨ (pid ≠ "" ∧ pid ∉ seen ∧
        ∃ e ∈ entries, postId e = pid ∧ convertOk e = true)) ∧
    (processFeed convertOk (fun _ => true) entries seen store).store.length =
      store.length + (processFeed convertOk (fun _ => true) entries seen store).count := by
  unfold processFeed
  constructor
  · exact mem_store_foldl convertOk entries ⟨seen, store, [], 0⟩ pid
  · have := store_length_foldl convertOk entries ⟨seen, store, [], 0⟩
    simpa using this

/-- Witness for C1: a concrete successful conversion is recorded. -/
theorem c1_witness :
    "a" ∈ (processFeed (fun _ => true) (fun _ => true)
      [⟨some "a", none, none⟩] ∅ []).store :=
  (c1_marked_iff_converted (fun _ => true) [⟨some "a", none, none⟩] ∅ [] "a").1.mpr
    (Or.inr ⟨by decide, by decide, ⟨some "a", none, none⟩, by decide, by decide, rfl⟩)

/-- Claim C2: If every entry of the feed converts successfully (and carries an
identifier), then a second `process_feed` over the same entries, starting
from the state the first call left behind, reports zero new posts: every
entry is now in the seen set. -/
theorem c2_second_pass_zero (convertOk : FeedEntry → Bool)
    (entries : List FeedEntry) (seen : Finset String) (store : List String)
    (h : ∀ e ∈ entries, postId e ≠ "" ∧ convertOk e = true) :
    (processFeed convertOk (fun _ => true) entries
      (processFeed convertOk (fun _ => true) entries seen store).seen
      (processFeed convertOk (fun _ => true) entries seen store).store).count = 0 := by
  have hcond : ∀ e ∈ entries, postId e = "" ∨
      postId e ∈ (processFeed convertOk (fun _ => true) entries seen store).seen := by
    intro e he
    refine Or.inr ?_
    unfold processFeed
    rw [mem_seen_foldl]
    exact Or.inr ⟨(h e he).1, e, he, rfl, (h e he).2⟩
  have h2 : processFeed convertOk (fun _ => true) entries
      (processFeed convertOk (fun _ => true) entries seen store).seen
      (processFeed convertOk (fun _ => true) entries seen store).store =
      ⟨(processFeed convertOk (fun _ => true) entries seen store).seen,
       (processFeed convertOk (fun _ => true) entries seen store).store, [], 0⟩ :=
    foldl_eq_self convertOk (fun _ => true) entries _ hcond
  rw [h2]

/-- Witness for C2: a concrete one-entry feed processed twice. -/
theorem c2_witness :
    (processFeed (fun _ => true) (fun _ => true) [⟨some "a", none, none⟩]
      (processFeed (fun _ => true) (fun _ => true) [⟨some "a", none, none⟩] ∅ []).seen
      (processFeed (fun _ => true) (fun _ => true) [⟨some "a", none, none⟩] ∅ []).store).count
      = 0 :=
  c2_second_pass_zero (fun _ => true) [⟨some "a", none, none⟩] ∅ [] (by decide)

/-- Claim C9: If conversion succeeds but the history append raises, the
identifier still enters the in-memory seen set (memory is updated first), so
a second occurrence of the entry in the same run is skipped, while the
history file is unchanged and the count excludes the entry.  Exactly one
artifact was written. -/
theorem c9_save_failure (convertOk : FeedEntry → Bool) (e : FeedEntry)
    (seen : Finset String) (store : List String)
    (h1 : postId e ≠ "") (h2 : postId e ∉ seen) (h3 : convertOk e = true) :
    postId e ∈ (processFeed convertOk (fun _ => false) [e, e] seen store).seen ∧
    (processFeed convertOk (fun _ => false) [e, e] seen store).store = store ∧
    (processFeed convertOk (fun _ => false) [e, e] seen store).count = 0 ∧
    (processFeed convertOk (fun _ => false) [e, e] seen store).converted = [postId e] := by
  unfold processFeed
  rw [List.foldl_cons, processEntry_convert_nosave _ _ _ _ h1 h2 h3 rfl,
    List.foldl_cons, processEntry_of_seen _ _ _ _ (Finset.mem_insert_self _ _),
    List.foldl_nil]
  exact ⟨Finset.mem_insert_self _ _, rfl, rfl, by simp⟩

/-- Witness for C9: a concrete entry whose history append fails. -/
theorem c9_witness :
    "a" ∈ (processFeed (fun _ => true) (fun _ => false)
        [⟨some "a", none, none⟩, ⟨some "a", none, none⟩] ∅ []).seen ∧
    (processFeed (fun _ => true) (fun _ => false)
        [⟨some "a", none, none⟩, ⟨some "a", none, none⟩] ∅ []).store = [] ∧
    (processFeed (fun _ => true) (fun _ => false)
        [⟨some "a", none, none⟩, ⟨some "a", none, none⟩] ∅ []).count = 0 ∧
    (processFeed (fun _ => true) (fun _ => false)
        [⟨some "a", none, none⟩, ⟨some "a", none, none⟩] ∅ []).converted = ["a"] :=
  c9_save_failure (fun _ => true) ⟨some "a", none, none⟩ ∅ []
    (by decide) (by decide) rfl

/-- Claim C10: The in-memory seen set only ever grows: whatever the oracles
do, the seen set before a `process_feed` call is contained in the seen set
afterwards. -/
theorem c10_seen_monotone (convertOk : FeedEntry → Bool) (saveOk : String → Bool)
    (entries : List FeedEntry) (seen : Finset String) (store : List String) :
    seen ⊆ (processFeed convertOk saveOk entries seen store).seen :=
  seen_subset_foldl convertOk saveOk entries ⟨seen, store, [], 0⟩

/-- Witness for C10 at a concrete state. -/
theorem c10_witness :
    ({"x"} : Finset String) ⊆ (processFeed (fun _ => true) (fun _ => true)
      [⟨some "a", none, none⟩] {"x"} []).seen :=
  c10_seen_monotone (fun _ => true) (fun _ => true) [⟨some "a", none, none⟩] {"x"} []

/-- Claim C7: For a feed `[A, B, A]` whose two `A` occurrences carry the same
fresh identifier, one call to `process_feed` writes exactly one artifact for
`A` and appends `A`'s identifier to the history store exactly once: the
second occurrence is caught by the in-memory seen set. -/
theorem c7_duplicate_once (convertOk : FeedEntry → Bool) (A B : FeedEntry)
    (seen : Finset String) (store : List String)
    (h1 : postId A ≠ "") (h2 : postId A ∉ seen) (h3 : convertOk A = true)
    (h4 : store.count (postId A) = 0) :
    (processFeed convertOk (fun _ => true) [A, B, A] seen store).converted.count
      (postId A) = 1 ∧
    (processFeed convertOk (fun _ => true) [A, B, A] seen store).store.count
      (postId A) = 1 := by
  unfold processFeed
  rw [List.foldl_cons, processEntry_convert_save _ _ _ _ h1 h2 h3 rfl]
  by_cases hb1 : postId B = ""
  · rw [List.foldl_cons, processEntry_of_empty _ _ _ _ hb1, List.foldl_cons,
      processEntry_of_seen _ _ _ _ (Finset.mem_insert_self _ _), List.foldl_nil]
    constructor <;> simp [List.count_append, h4]
  · by_cases hb2 : postId B ∈ insert (postId A) seen
    · rw [List.foldl_cons,
        processEntry_of_seen _ _ ⟨insert (postId A) seen, store ++ [postId A],
          [] ++ [postId A], 0 + 1⟩ B hb2,
        List.foldl_cons,
        processEntry_of_seen _ _ _ _ (Finset.mem_insert_self _ _), List.foldl_nil]
      constructor <;> simp [List.count_append, h4]
    · have hAB : postId B ≠ postId A := fun hc =>
        hb2 (hc ▸ Finset.mem_insert_self (postId A) seen)
      by_cases hb3 : convertOk B = true
      · rw [List.foldl_cons, processEntry_convert_save _ _ _ _ hb1 hb2 hb3 rfl,
          List.foldl_cons,
          processEntry_of_seen _ _ _ _
            (Finset.mem_insert_of_mem (Finset.mem_insert_self _ _)),
          List.foldl_nil]
        constructor <;> simp [List.count_append, h4, List.count_singleton, hAB]
      · rw [List.foldl_cons,
          processEntry_of_fail _ _ _ _ (Bool.eq_false_iff.mpr hb3),
          List.foldl_cons,
          processEntry_of_seen _ _ _ _ (Finset.mem_insert_self _ _), List.foldl_nil]
        constructor <;> simp [List.count_append, h4]

/-- Witness for C7: a concrete `[A, B, A]` feed. -/
theorem c7_witness :
    (processFeed (fun _ => true) (fun _ => true)
      [⟨some "a", none, none⟩, ⟨some "b", none, none⟩, ⟨some "a", none, none⟩]
      ∅ []).converted.count "a" = 1 ∧
    (processFeed (fun _ => true) (fun _ => true)
      [⟨some "a", none, none⟩, ⟨some "b", none, none⟩, ⟨some "a", none, none⟩]
      ∅ []).store.count "a" = 1 :=
  c7_duplicate_once (fun _ => true) ⟨some "a", none, none⟩ ⟨some "b", none, none⟩
    ∅ [] (by decide) (by decide) rfl rfl

/-- Claim C4: Starting from an empty registry, reconciling with feed list
`[F1, F2]` and then with `[F2, F3]` leaves processors for exactly `{F2, F3}`
(`F1`'s processor is removed, `F3`'s added), and `F1`'s history file on disk
is exactly what it was: `_update_converters` performs no filesystem write or
deletion at all. -/
theorem c4_reconciliation (disk : DiskMap) (F1 F2 F3 : String)
    (h12 : F1 ≠ F2) (h13 : F1 ≠ F3) :
    (registryKeys (updateConvertersFS (updateConvertersFS disk [F1, F2] []).2
        [F2, F3] (updateConvertersFS disk [F1, F2] []).1).1).toFinset
      = {F2, F3} ∧
    F1 ∉ registryKeys (updateConvertersFS (updateConvertersFS disk [F1, F2] []).2
        [F2, F3] (updateConvertersFS disk [F1, F2] []).1).1 ∧
    (updateConvertersFS (updateConvertersFS disk [F1, F2] []).2
        [F2, F3] (updateConvertersFS disk [F1, F2] []).1).2 (histFileName F1)
      = disk (histFileName F1) := by
  simp only [updateConvertersFS]
  have hkeys : ∀ u, u ∈ registryKeys (updateConverters disk [F2, F3]
      (updateConverters disk [F1, F2] [])) ↔ u ∈ [F2, F3] :=
    fun u => mem_keys_updateConverters disk [F2, F3] _ u (by simp)
  refine ⟨?_, ?_, trivial⟩
  · ext a
    rw [List.mem_toFinset, hkeys]
    simp
  · intro hmem
    rcases (by simpa using (hkeys F1).mp hmem : F1 = F2 ∨ F1 = F3) with h | h
    · exact h12 h
    · exact h13 h

/-- Witness for C4 at concrete distinct URLs and an empty disk. -/
theorem c4_witness :
    (registryKeys (updateConvertersFS
        (updateConvertersFS (fun _ => none) ["u1", "u2"] []).2
        ["u2", "u3"] (updateConvertersFS (fun _ => none) ["u1", "u2"] []).1).1).toFinset
      = {"u2", "u3"} ∧
    "u1" ∉ registryKeys (updateConvertersFS
        (updateConvertersFS (fun _ => none) ["u1", "u2"] []).2
        ["u2", "u3"] (updateConvertersFS (fun _ => none) ["u1", "u2"] []).1).1 ∧
    (updateConvertersFS (updateConvertersFS (fun _ => none) ["u1", "u2"] []).2
        ["u2", "u3"] (updateConvertersFS (fun _ => none) ["u1", "u2"] []).1).2
      (histFileName "u1") = (fun _ => none : DiskMap) (histFileName "u1") :=
  c4_reconciliation (fun _ => none) "u1" "u2" "u3" (by decide) (by decide)

/-- Claim C5, counterexample: The claim says `run()` terminates only via an
external interrupt.  But with an empty feed list the startup phase's
reconciliation leaves the registry empty and `run` returns at once (lines
302-305) - a termination involving no interrupt at all (`runStart` takes no
interrupt input). -/
theorem c5_counterexample : runStart (fun _ => none) [] = .exitNoFeeds := rfl

/-- Claim C5, amended: Once the `while True` loop is entered, an iteration
stops the loop exactly when the interrupt arrives; in particular, when an
in-loop reconciliation empties the registry the iteration processes no feed
and continues.  (The startup path may still return without an interrupt,
as the counterexample shows.) -/
theorem c5_loop_continues (env : LoopEnv) (st : MonState) :
    (loopStep env st = .stopped ↔ env.interrupt = true) ∧
    (env.interrupt = false → env.feedListUpdated = true →
      updateConverters env.disk env.feeds st.converters = [] →
      loopStep env st =
        .next ⟨updateConverters env.disk env.feeds st.converters⟩ []) := by
  constructor
  · by_cases hi : env.interrupt = true
    · simp [loopStep, hi]
    · rw [Bool.not_eq_true] at hi
      simp only [loopStep, hi, Bool.false_eq_true, if_false]
      refine iff_false_intro ?_
      intro h
      split at h <;> split at h <;> exact LoopOutcome.noConfusion h
  · intro hi hu hempty
    simp [loopStep, hi, hu, hempty]

/-- Witness for C5 (amended): a concrete iteration whose reconciliation
leaves the registry empty continues without processing. -/
theorem c5_witness :
    loopStep ⟨false, true, [], fun _ => none⟩ ⟨[]⟩ =
      .next ⟨updateConverters (fun _ => none) [] []⟩ [] :=
  (c5_loop_continues ⟨false, true, [], fun _ => none⟩ ⟨[]⟩).2 rfl rfl rfl

/-- Claim C3, counterexample: The claim truncates to 50 characters *before*
trimming separator underscores; the source strips underscores *before*
truncating (`.strip('_')` on line 125 precedes `[:50]` on line 126).  On a
title of an underscore followed by fifty `a`s the two orders give sanitized
titles of lengths 50 and 49, hence different filenames. -/
theorem c3_counterexample :
    mkEpubFilename "_aaaaaaaaaaaaaaaaaaaaaaaaaaaaaaaaaaaaaaaaaaaaaaaaaa" "x" ≠
      claimFilename "_aaaaaaaaaaaaaaaaaaaaaaaaaaaaaaaaaaaaaaaaaaaaaaaaaa" "x" := by
  intro h
  simp only [mkEpubFilename, claimFilename] at h
  injection h with hd
  have hlen := congrArg List.length hd
  simp only [List.length_append, List.length_cons, idHash16_length] at hlen
  have e1 : (safeTitle "_aaaaaaaaaaaaaaaaaaaaaaaaaaaaaaaaaaaaaaaaaaaaaaaaaa").length
      = 50 := by decide
  have e2 : (claimSafeTitle "_aaaaaaaaaaaaaaaaaaaaaaaaaaaaaaaaaaaaaaaaaaaaaaaaaa").length
      = 49 := by decide
  omega

/-- Claim C3, amended: The filename is computed by keeping only alphanumeric
characters, spaces, hyphens and underscores from the title (space normalized
to underscore), trimming leading/trailing underscores, *then* trimming to a
maximum of 50 characters, substituting "post" if the result is empty, and
appending an underscore, the first 16 hex characters of the SHA-256 digest
of the identifier, and the ".epub" extension. -/
theorem c3_filename_amended (t i : String) :
    mkEpubFilename t i = amendedFilename t i := by
  simp only [mkEpubFilename, amendedFilename, safeTitle, amendedSafeTitle,
    keepTitleChar_flatten]

/-- Claim C6, counterexample: "Different identifiers always give different
filenames" is false in principle: the filename distinguishes identifiers
only through the first 16 hex characters (64 bits) of their SHA-256 digest,
and a map from the infinitely many identifier strings into 2^64 digest
prefixes cannot be injective, so two distinct identifiers share a filename
for any fixed title. -/
theorem c6_counterexample :
    ∃ t i1 i2 : String, i1 ≠ i2 ∧ mkEpubFilename t i1 = mkEpubFilename t i2 := by
  obtain ⟨s1, s2, hne, he⟩ := Finite.exists_ne_map_eq_of_infinite hashFin64
  refine ⟨"t", s1, s2, hne, ?_⟩
  have hv : digest64 s1 % 18446744073709551616 =
      digest64 s2 % 18446744073709551616 := by
    simpa [hashFin64] using congrArg Fin.val he
  have b1 := sha256Words_bounds s1
  have b2 := sha256Words_bounds s2
  have hlt1 : digest64 s1 < 18446744073709551616 := by
    unfold digest64; omega
  have hlt2 : digest64 s2 < 18446744073709551616 := by
    unfold digest64; omega
  rw [Nat.mod_eq_of_lt hlt1, Nat.mod_eq_of_lt hlt2] at hv
  unfold digest64 at hv
  have hh : idHash16 s1 = idHash16 s2 := by
    rw [idHash16_eq_two_words, idHash16_eq_two_words,
      show (sha256Words s1).a = (sha256Words s2).a by omega,
      show (sha256Words s1).b = (sha256Words s2).b by omega]
  simp only [mkEpubFilename, hh]

/-- Claim C6, amended: The filename function is deterministic - equal
(title, identifier) inputs give the identical filename - and for a fixed
title two identifiers produce the same filename exactly when the first 16
hex characters of their SHA-256 digests coincide; distinct identifiers thus
give distinct filenames unless their 64-bit truncated digests collide
(possible in principle, as the counterexample shows). -/
theorem c6_filename_stability (t i1 i2 : String) :
    mkEpubFilename t i1 = mkEpubFilename t i1 ∧
    (mkEpubFilename t i1 = mkEpubFilename t i2 ↔ idHash16 i1 = idHash16 i2) := by
  refine ⟨rfl, ?_, ?_⟩
  · intro h
    simp only [mkEpubFilename] at h
    injection h with hd
    have h2 : safeTitle t ++ ('_' :: idHash16 i1) =
        safeTitle t ++ ('_' :: idHash16 i2) :=
      List.append_cancel_right hd
    have h3 : ('_' :: idHash16 i1) = ('_' :: idHash16 i2) :=
      List.append_cancel_left h2
    injection h3
  · intro h
    simp only [mkEpubFilename, h]

/-- Claim C8: The unknown-flag and malformed/non-positive interval paths do
exit with code 1 before any monitor is built, but `--interval nan` defeats
the guard: `float('nan')` parses, `nan <= 0` is `False`, and the monitor is
constructed with a NaN poll interval although NaN is not a positive number -
contradicting both the claim and the code's own error message
("Interval must be a positive number"). -/
theorem c8_interval_nan :
    parseMonitorArgs ["--interval", "nan"] =
      .ok ⟨"rss_feed.txt", "output", PFloat.nan⟩ ∧
    parseMonitorArgs ["--interval", "-5"] = .error 1 ∧
    parseMonitorArgs ["--interval", "0"] = .error 1 ∧
    parseMonitorArgs ["--interval", "abc"] = .error 1 ∧
    parseMonitorArgs ["--frobnicate"] = .error 1 ∧
    parseMonitorArgs ["--interval"] = .error 1 := by
  refine ⟨rfl, ?_, ?_, rfl, rfl, rfl⟩ <;> rfl
